import Mathlib

/-!
# Verification of the daneshyar AI-request gateway

Shallow embedding of the repository's AI-request gateway and the
adjacent utilities that the specification's testable properties talk
about:

* `KeyManager` (credential pool + cooldown map + round-robin cursor)
  and `executeWithRotation`, from the `services` module
  (`src/unnamed/part_000`);
* the edge relay `handler` from `src/api/proxy.ts`;
* the base64 audio utilities `encodeBase64` / `decodeBase64` and the
  PCM int16 ↔ float conversions (`decodeAudioData`,
  `SenseiHub.startVoiceSession`);
* the typing-assessment component state machine
  (`TypingAssessment` in `src/unnamed/part_005`).

JS `Map<string, number>` is modelled as an association list with
first-match lookup and in-place overwrite on `set`; `Date.now()` is an
explicit `now : Nat` parameter; thrown exceptions become explicit
result constructors.
-/

namespace DaneshYar

/-! ## JS Map<string, number> -/

/-- `map.get(k) || 0`: first-match lookup with `0` for a missing key. -/
def mapGet (m : List (String × Nat)) (k : String) : Nat :=
  ((m.lookup k).getD 0)

/-- `map.set(k, v)`: replace the existing entry in place, else append. -/
def mapSet : List (String × Nat) → String → Nat → List (String × Nat)
  | [], k, v => [(k, v)]
  | (k', v') :: rest, k, v =>
    if k' = k then (k, v) :: rest else (k', v') :: mapSet rest k v

/-! ## KeyManager (`src/unnamed/part_000`, lines 36–128) -/

/-- `COOLDOWN_TIME = 65000` ms. -/
def COOLDOWN_TIME : Nat := 65000

/-- The mutable fields of the `KeyManager` singleton. -/
structure KM where
  keys : List String
  currentIndex : Nat
  cooldowns : List (String × Nat)
  deriving Repr, DecidableEq

/-- The environment surface scanned by `initPool`: `API_KEY`, the base
`VITE_GOOGLE_GENAI_TOKEN`, and the numbered series `_1 .. _500`. -/
structure Env where
  apiKey : Option String
  baseToken : Option String
  numbered : Nat → Option String

/-- JS truthiness on an optional string: the empty string is falsy, so
`if (env.X)` keeps only present, non-empty values. -/
def truthyOpt (o : Option String) : Option String :=
  o.bind fun s => if s = "" then none else some s

/-- `KeyManager.initPool`: push `API_KEY`, then the base token, then the
numbered tokens 1..500 in ascending order (truthy values only); if the
pool came out empty, fall back to `[API_KEY]` when that is truthy. -/
def initPool (env : Env) : List String :=
  let pool := (truthyOpt env.apiKey).toList ++ (truthyOpt env.baseToken).toList
      ++ (List.range' 1 500).filterMap (fun i => truthyOpt (env.numbered i))
  if pool.length > 0 then pool
  else
    match truthyOpt env.apiKey with
    | some k => [k]
    | none => []

/-- The `KeyManager` constructor: run `initPool`; cursor 0; no cooldowns.
A total function — construction never throws. -/
def kmInit (env : Env) : KM :=
  { keys := initPool env, currentIndex := 0, cooldowns := [] }

/-- The availability test at line 106 of `getNextHealthyKey`:
`now > (cooldowns.get(key) || 0)`. -/
def isAvailable (cooldowns : List (String × Nat)) (key : String) (now : Nat) : Bool :=
  mapGet cooldowns key < now

/-- The `while (attempts < keys.length)` scan of `getNextHealthyKey`,
with `fuel` the number of remaining loop iterations.  Each iteration
reads `keys[currentIndex]`, returns it if its cooldown has passed, and
otherwise advances the cursor modulo the pool size.  When the scan is
exhausted (all keys cooling) it returns `keys[0]` as last resort. -/
def ghkLoop (km : KM) (now : Nat) : Nat → String × KM
  | 0 => (km.keys.getD 0 "", km)
  | fuel + 1 =>
    let key := km.keys.getD km.currentIndex ""
    if isAvailable km.cooldowns key now then
      (key, { km with currentIndex := (km.currentIndex + 1) % km.keys.length })
    else
      ghkLoop { km with currentIndex := (km.currentIndex + 1) % km.keys.length } now fuel

/-- `KeyManager.getNextHealthyKey`.  `envApiKey` models `process.env.API_KEY`:
with an empty pool the method returns `process.env.API_KEY || ''`. -/
def getNextHealthyKey (envApiKey : Option String) (km : KM) (now : Nat) : String × KM :=
  if km.keys.length = 0 then (envApiKey.getD "", km)
  else ghkLoop km now km.keys.length

/-- `KeyManager.markAsLimited`: `cooldowns.set(key, Date.now() + COOLDOWN_TIME)`. -/
def markAsLimited (km : KM) (key : String) (now : Nat) : KM :=
  { km with cooldowns := mapSet km.cooldowns key (now + COOLDOWN_TIME) }

/-- `n` consecutive `getNextHealthyKey` selections, returning the keys
selected (in order) and the final state. -/
def selectN (envApiKey : Option String) (km : KM) (now : Nat) : Nat → List String × KM
  | 0 => ([], km)
  | n + 1 =>
    let sel := getNextHealthyKey envApiKey km now
    let rest := selectN envApiKey sel.2 now n
    (sel.1 :: rest.1, rest.2)

/-! ## Error classification and `executeWithRotation` (lines 132–165) -/

/-- Does `hay` contain `needle` as a contiguous substring
(`errorMsg.includes(...)`)? -/
def containsSub (hay needle : List Char) : Bool :=
  hay.tails.any (fun t => needle.isPrefixOf t)

/-- The three-way branch of the `catch` block, on the lower-cased
message. -/
inductive ErrClass where
  | rateLimited
  | authInvalid
  | other
  deriving Repr, DecidableEq

/-- Classify a thrown error by its message, exactly as the `catch`
block does: lower-case the message (`err.message?.toLowerCase()`,
per-character, as all matched signatures are ASCII), then
`'429' | 'quota' | 'limit'` → rate-limited;
`'entity was not found' | 'invalid api key'` → invalid key; else rethrow. -/
def classify (msg : String) : ErrClass :=
  let m := msg.toList.map Char.toLower
  if containsSub m "429".toList || containsSub m "quota".toList
      || containsSub m "limit".toList then .rateLimited
  else if containsSub m "entity was not found".toList
      || containsSub m "invalid api key".toList then .authInvalid
  else .other

/-- Outcome of one upstream `operation(ai)` invocation. -/
inductive Outcome where
  | success (v : Nat)
  | failure (msg : String)
  deriving Repr, DecidableEq

/-- Result of `executeWithRotation`: a returned value, the
`"API key is missing or not configured correctly."` throw, or a
rethrown / last-observed upstream error. -/
inductive DispatchResult where
  | ok (v : Nat)
  | thrownConfig
  | thrown (msg : String)
  deriving Repr, DecidableEq

/-- Final state of one `executeWithRotation` run: its result, the
`KeyManager` state afterwards, and the keys used by the actual upstream
invocations, in order (one entry per `operation(ai)` call). -/
structure RunResult where
  result : DispatchResult
  km : KM
  attempts : List String
  deriving Repr, DecidableEq

/-- The `for (let i = 0; i < maxRetries; i++)` loop of
`executeWithRotation`, with `fuel` the remaining iterations,
`lastError` the last recorded failure message, and `acc` the upstream
invocations so far.  `op i key` is the outcome `operation(ai)` would
produce on attempt `i` with credential `key`. -/
def ewrGo (envApiKey : Option String) (op : Nat → String → Outcome) (now : Nat) :
    KM → Nat → Nat → Option String → List String → RunResult
  | km, _, 0, lastError, acc =>
    { result := .thrown (lastError.getD ""), km := km, attempts := acc }
  | km, i, fuel + 1, _lastError, acc =>
    let sel := getNextHealthyKey envApiKey km now
    let key := sel.1
    let km1 := sel.2
    if key = "" then { result := .thrownConfig, km := km1, attempts := acc }
    else
      match op i key with
      | .success v => { result := .ok v, km := km1, attempts := acc ++ [key] }
      | .failure msg =>
        match classify msg with
        | .rateLimited =>
          ewrGo envApiKey op now (markAsLimited km1 key now) (i + 1) fuel (some msg)
            (acc ++ [key])
        | .authInvalid =>
          ewrGo envApiKey op now km1 (i + 1) fuel (some msg) (acc ++ [key])
        | .other => { result := .thrown msg, km := km1, attempts := acc ++ [key] }

/-- `executeWithRotation`: `maxRetries = Math.max(3, keyManager.getKeyCount())`
iterations of rotate-attempt-classify. -/
def executeWithRotation (envApiKey : Option String) (op : Nat → String → Outcome)
    (km : KM) (now : Nat) : RunResult :=
  ewrGo envApiKey op now km 0 (max 3 km.keys.length) none []

/-! ## Edge relay (`src/api/proxy.ts`, first handler, lines 9–70) -/

/-- The parts of the incoming HTTP request the handler inspects:
`req.method` and `req.body.action` (the other body fields are passed
through opaquely). -/
structure Req where
  method : String
  action : String
  deriving Repr, DecidableEq

/-- What the upstream `ai.models.generateContent` call does for a given
credential: succeed with a result, or throw an error carrying an
optional numeric `status` and an optional `message`. -/
inductive UpstreamResult where
  | ok (v : Nat)
  | err (status : Option Nat) (msg : Option String)
  deriving Repr, DecidableEq

/-- The observable response of the relay handler: the HTTP status, the
`error` field of the JSON body (when present), the `retrySuggested`
field (when present), and whether an upstream call was made at all. -/
structure Resp where
  status : Nat
  error : Option String
  retrySuggested : Option Bool
  upstreamCalled : Bool
  deriving Repr, DecidableEq

/-- The key pool discovered by the handler on each request:
`API_KEY`, `VITE_GOOGLE_GENAI_TOKEN`, then `VITE_GOOGLE_GENAI_TOKEN_1..500`
(truthy values only, in that order). -/
def relayPool (env : Env) : List String :=
  (truthyOpt env.apiKey).toList ++ (truthyOpt env.baseToken).toList
    ++ (List.range' 1 500).filterMap (fun i => truthyOpt (env.numbered i))

/-- JS `error.status || 500`: a missing or falsy (0) status becomes 500. -/
def statusOr500 (st : Option Nat) : Nat :=
  match st with
  | none => 500
  | some s => if s = 0 then 500 else s

/-- The relay `handler`.  `rand` models `Math.floor(Math.random() * len)`
(reduced modulo the pool length); `upstream key` is what the
`generateContent` call would do with the selected credential. -/
def handler (env : Env) (rand : Nat) (req : Req)
    (upstream : String → UpstreamResult) : Resp :=
  if req.method = "OPTIONS" then
    { status := 200, error := none, retrySuggested := none, upstreamCalled := false }
  else if req.method ≠ "POST" then
    { status := 405, error := some "Method Not Allowed", retrySuggested := none,
      upstreamCalled := false }
  else
    let keyPool := relayPool env
    if keyPool.length = 0 then
      { status := 500, error := some "System Error: No valid API keys found in KeyPool.",
        retrySuggested := none, upstreamCalled := false }
    else
      let selectedKey := keyPool.getD (rand % keyPool.length) ""
      if req.action = "generateContent" then
        match upstream selectedKey with
        | .ok _ =>
          { status := 200, error := none, retrySuggested := none, upstreamCalled := true }
        | .err st msg =>
          let status := statusOr500 st
          { status := status,
            error := some (msg.getD "AI Engine is temporarily unavailable."),
            retrySuggested := some (status == 429), upstreamCalled := true }
      else
        { status := 400,
          error := some ("Action '" ++ req.action ++ "' is not supported by the Proxy Bridge."),
          retrySuggested := none, upstreamCalled := false }

/-! ## Audio utilities: base64 (`encodeBase64` / `decodeBase64`)

`encodeBase64` builds a binary string from the byte array with
`String.fromCharCode` and applies `btoa`; `decodeBase64` applies `atob`
and reads the bytes back with `charCodeAt`.  On code points 0–255 the
`fromCharCode`/`charCodeAt` pair is the identity, so the composite is
standard base64 over the byte list, modelled here with bytes as `Nat`
(< 256) and the base64 text as a `List Char`. -/

/-- The base64 alphabet used by `btoa`/`atob`. -/
def b64Alphabet : List Char :=
  ['A','B','C','D','E','F','G','H','I','J','K','L','M','N','O','P','Q','R','S','T',
   'U','V','W','X','Y','Z','a','b','c','d','e','f','g','h','i','j','k','l','m','n',
   'o','p','q','r','s','t','u','v','w','x','y','z','0','1','2','3','4','5','6','7',
   '8','9','+','/']

/-- Sixtet value → base64 character. -/
def sixToChar (n : Nat) : Char := b64Alphabet.getD n '?'

/-- Base64 character → sixtet value. -/
def charToSix (c : Char) : Nat := b64Alphabet.indexOf c

/-- `btoa` on a byte list: 3 bytes become a 24-bit group emitted as four
sixtets; a trailing 1- or 2-byte group is right-padded with `'='`. -/
def encodeBase64 : List Nat → List Char
  | [] => []
  | [b0] =>
    let n := b0 * 65536
    [sixToChar (n / 262144 % 64), sixToChar (n / 4096 % 64), '=', '=']
  | [b0, b1] =>
    let n := b0 * 65536 + b1 * 256
    [sixToChar (n / 262144 % 64), sixToChar (n / 4096 % 64), sixToChar (n / 64 % 64), '=']
  | b0 :: b1 :: b2 :: rest =>
    let n := b0 * 65536 + b1 * 256 + b2
    sixToChar (n / 262144 % 64) :: sixToChar (n / 4096 % 64) :: sixToChar (n / 64 % 64)
      :: sixToChar (n % 64) :: encodeBase64 rest

/-- Decode one four-character base64 group, honouring `'='` padding. -/
def decodeChunk (c0 c1 c2 c3 : Char) : List Nat :=
  if c2 = '=' then
    [(charToSix c0 * 262144 + charToSix c1 * 4096) / 65536]
  else if c3 = '=' then
    let n := charToSix c0 * 262144 + charToSix c1 * 4096 + charToSix c2 * 64
    [n / 65536, n / 256 % 256]
  else
    let n := charToSix c0 * 262144 + charToSix c1 * 4096 + charToSix c2 * 64 + charToSix c3
    [n / 65536, n / 256 % 256, n % 256]

/-- `atob` on a base64 text: decode each four-character group. -/
def decodeBase64 : List Char → List Nat
  | c0 :: c1 :: c2 :: c3 :: rest => decodeChunk c0 c1 c2 c3 ++ decodeBase64 rest
  | _ => []

/-! ## PCM int16 ↔ float conversion

`decodeAudioData` maps each int16 sample `s` to the float `s / 32768.0`
(exact in both float32 and float64, since `|s| ≤ 2^15`), and
`startVoiceSession` converts a float sample `x` back with
`int16[i] = x * 32768`, whose `Int16Array` store truncates toward zero
and wraps modulo 2^16 into the signed range.  Because every value in
range is exactly representable, the float arithmetic is modelled with
exact rationals. -/

/-- JS ToInt16 on an integer: wrap modulo 2^16 into `[-32768, 32767]`. -/
def jsToInt16 (x : Int) : Int :=
  let m := x % 65536
  if m < 32768 then m else m - 65536

/-- Truncation toward zero of a rational (the fractional-digit drop an
`Int16Array` store applies to its argument). -/
def ratTrunc (x : ℚ) : Int :=
  if 0 ≤ x then ⌊x⌋ else ⌈x⌉

/-- `decodeAudioData`: `channelData[i] = dataInt16[i] / 32768.0`. -/
def int16ToFloat (s : Int) : ℚ := (s : ℚ) / 32768

/-- `startVoiceSession`: `int16[i] = inputData[i] * 32768` (store into an
`Int16Array`). -/
def floatToInt16 (x : ℚ) : Int := jsToInt16 (ratTrunc (x * 32768))

/-! ## Typing assessment (`TypingAssessment`, `src/unnamed/part_005`)

Texts are `List Char`; `Date.now()` is an explicit parameter; the React
state updates of one handler call are collapsed into one state
transition.  Timer ticks and the retry button are separate events. -/

/-- The stats record passed to `onComplete`. -/
structure TStats where
  wpm : Int
  accuracy : Nat
  mistakes : Nat
  duration : ℚ
  score : Nat
  deriving Repr, DecidableEq

/-- The component's state: `typedText`, `mistakeCount`, `wpm`,
`timeLeft`, `isStarted`, `isFailed`, `score`, and `startTimeRef`. -/
structure TState where
  typedText : List Char
  mistakeCount : Nat
  wpm : Int
  timeLeft : Nat
  isStarted : Bool
  isFailed : Bool
  score : Nat
  startTime : Option Nat
  deriving Repr, DecidableEq

/-- `calculateScore`. -/
def calculateScore (mistakes : Nat) : Nat :=
  if mistakes = 0 then 100
  else if mistakes ≤ 2 then 90
  else if mistakes ≤ 5 then 80
  else 0

/-- The initial state (also what `handleRetry` resets to): empty text,
no mistakes, score 100, timer at `max 10 originalText.length`. -/
def initState (orig : List Char) : TState :=
  { typedText := [], mistakeCount := 0, wpm := 0, timeLeft := max 10 orig.length,
    isStarted := false, isFailed := false, score := 100, startTime := none }

/-- `handleTyping`: ignore input after failure or past the target's
length; start the clock on the first character; count a mistake when
the newly appended character differs from the expected one; store the
text, the score `calculateScore(newMistakes)`, and the updated WPM. -/
def handleTyping (orig : List Char) (st : TState) (value : List Char) (now : Nat) :
    TState :=
  if st.isFailed then st
  else if orig.length < value.length then st
  else
    let st1 := if st.isStarted = false ∧ 0 < value.length then
        { st with isStarted := true, startTime := some now } else st
    let newMistakes :=
      if st1.typedText.length < value.length then
        if value.getD (value.length - 1) 'A' ≠ orig.getD (value.length - 1) 'A' then
          st1.mistakeCount + 1
        else st1.mistakeCount
      else st1.mistakeCount
    let wpm' : Int :=
      match st1.startTime with
      | some start =>
        if 0 < value.length then
          let mins : ℚ := ((now : ℚ) - (start : ℚ)) / 60000
          round ((value.length : ℚ) / 5 / (if mins = 0 then 1 / 100 else mins))
        else st1.wpm
      | none => st1.wpm
    { st1 with
      typedText := value, mistakeCount := newMistakes,
      score := calculateScore newMistakes, wpm := wpm' }

/-- One firing of the countdown interval: active only while started,
not failed, and time remains; at 1 second left it fails the run. -/
def timerTick (st : TState) : TState :=
  if st.isStarted = true ∧ st.isFailed = false ∧ 0 < st.timeLeft then
    if st.timeLeft ≤ 1 then { st with isFailed := true, timeLeft := 0 }
    else { st with timeLeft := st.timeLeft - 1 }
  else st

/-- `handleFinish`: fires `onComplete(typedText, stats)` only when
`canPass = isComplete && !isFailed && score >= 80` and the clock was
started; otherwise nothing happens. -/
def handleFinish (orig : List Char) (st : TState) (now : Nat) :
    Option (List Char × TStats) :=
  let isComplete := st.typedText = orig
  if isComplete ∧ st.isFailed = false ∧ 80 ≤ st.score then
    match st.startTime with
    | some start =>
      some (st.typedText,
        { wpm := st.wpm, accuracy := 100, mistakes := st.mistakeCount,
          duration := ((now : ℚ) - (start : ℚ)) / 1000, score := st.score })
    | none => none
  else none

/-- States of the component reachable from mount through typing events,
timer ticks, and the retry button. -/
inductive Reachable (orig : List Char) : TState → Prop
  | init : Reachable orig (initState orig)
  | typing (st : TState) (value : List Char) (now : Nat) :
      Reachable orig st → Reachable orig (handleTyping orig st value now)
  | tick (st : TState) : Reachable orig st → Reachable orig (timerTick st)
  | retry (st : TState) : Reachable orig st → Reachable orig (initState orig)

/-! ## Map lemmas -/

@[simp] theorem mapGet_nil (k : String) : mapGet [] k = 0 := rfl

@[simp] theorem mapGet_mapSet_self (m : List (String × Nat)) (k : String) (v : Nat) :
    mapGet (mapSet m k v) k = v := by
  induction m with
  | nil => simp [mapGet, mapSet, List.lookup]
  | cons p rest ih =>
    obtain ⟨k', v'⟩ := p
    by_cases h : k' = k
    · simp [mapSet, h, mapGet, List.lookup]
    · simp only [mapSet, if_neg h]
      simp only [mapGet, List.lookup] at ih ⊢
      rw [show (k == k') = false from beq_eq_false_iff_ne.mpr fun hh => h hh.symm]
      exact ih

/-! ## Selection lemmas -/

/-- The `getNextHealthyKey` scan always returns a pool member, leaves
the key list and cooldown map untouched, and keeps the cursor in
range. -/
theorem ghkLoop_spec (now : Nat) (fuel : Nat) :
    ∀ km : KM, km.keys ≠ [] → km.currentIndex < km.keys.length →
      (ghkLoop km now fuel).1 ∈ km.keys ∧
      (ghkLoop km now fuel).2.keys = km.keys ∧
      (ghkLoop km now fuel).2.cooldowns = km.cooldowns ∧
      (ghkLoop km now fuel).2.currentIndex < km.keys.length := by
  induction fuel with
  | zero =>
    intro km hne hidx
    have hlen : 0 < km.keys.length := List.length_pos.mpr hne
    refine ⟨?_, rfl, rfl, hidx⟩
    show km.keys.getD 0 "" ∈ km.keys
    rw [List.getD_eq_getElem _ _ hlen]
    exact List.getElem_mem hlen
  | succ n ih =>
    intro km hne hidx
    have hlen : 0 < km.keys.length := List.length_pos.mpr hne
    have hmem : km.keys.getD km.currentIndex "" ∈ km.keys := by
      rw [List.getD_eq_getElem _ _ hidx]
      exact List.getElem_mem hidx
    rw [ghkLoop]
    cases hav : isAvailable km.cooldowns (km.keys.getD km.currentIndex "") now with
    | true =>
      simp only [hav, if_true]
      exact ⟨hmem, trivial, trivial, Nat.mod_lt _ hlen⟩
    | false =>
      simp only [hav, Bool.false_eq_true, if_false]
      exact ih { km with currentIndex := (km.currentIndex + 1) % km.keys.length } hne
        (Nat.mod_lt _ hlen)

/-- `getNextHealthyKey` on a non-empty pool: the same four facts. -/
theorem getNextHealthyKey_spec (e : Option String) (km : KM) (now : Nat)
    (hne : km.keys ≠ []) (hidx : km.currentIndex < km.keys.length) :
    (getNextHealthyKey e km now).1 ∈ km.keys ∧
    (getNextHealthyKey e km now).2.keys = km.keys ∧
    (getNextHealthyKey e km now).2.cooldowns = km.cooldowns ∧
    (getNextHealthyKey e km now).2.currentIndex < km.keys.length := by
  have hlen : km.keys.length ≠ 0 := fun h => hne (List.length_eq_zero.mp h)
  rw [getNextHealthyKey]
  simp only [hlen, if_false]
  exact ghkLoop_spec now km.keys.length km hne hidx

/-- With no cooldown entries and a positive clock, the scan returns the
key under the cursor and advances the cursor by one, modulo the pool
size. -/
theorem ghkLoop_rr (km : KM) (now fuel : Nat) (hcool : km.cooldowns = [])
    (hnow : 1 ≤ now) (hfuel : 1 ≤ fuel) :
    ghkLoop km now fuel =
      (km.keys.getD km.currentIndex "",
        { km with currentIndex := (km.currentIndex + 1) % km.keys.length }) := by
  cases fuel with
  | zero => omega
  | succ n =>
    rw [ghkLoop]
    have hav : isAvailable km.cooldowns (km.keys.getD km.currentIndex "") now = true := by
      simp [isAvailable, hcool, mapGet]
      omega
    simp only [hav, if_true]

/-- Round-robin step of `getNextHealthyKey` when no credential is
cooling down. -/
theorem getNextHealthyKey_rr (e : Option String) (km : KM) (now : Nat)
    (hne : km.keys ≠ []) (hcool : km.cooldowns = []) (hnow : 1 ≤ now) :
    getNextHealthyKey e km now =
      (km.keys.getD km.currentIndex "",
        { km with currentIndex := (km.currentIndex + 1) % km.keys.length }) := by
  have hlen : km.keys.length ≠ 0 := fun h => hne (List.length_eq_zero.mp h)
  rw [getNextHealthyKey]
  simp only [hlen, if_false]
  exact ghkLoop_rr km now km.keys.length hcool hnow (Nat.one_le_iff_ne_zero.mpr hlen)

/-- `n` consecutive selections under no cooldowns walk the pool in
cyclic cursor order: the `j`-th selected key is
`keys[(currentIndex + j) % keys.length]`, and afterwards the cursor is
at `(currentIndex + n) % keys.length`. -/
theorem selectN_rr (e : Option String) (now : Nat) :
    ∀ (n : Nat) (km : KM), km.keys ≠ [] → km.cooldowns = [] → 1 ≤ now →
      km.currentIndex < km.keys.length →
      (selectN e km now n).1 =
        (List.range n).map
          (fun j => km.keys.getD ((km.currentIndex + j) % km.keys.length) "") ∧
      (selectN e km now n).2 =
        { km with currentIndex := (km.currentIndex + n) % km.keys.length } := by
  intro n
  induction n with
  | zero =>
    intro km hne hcool hnow hidx
    refine ⟨by simp [selectN], ?_⟩
    show km = { km with currentIndex := (km.currentIndex + 0) % km.keys.length }
    rw [Nat.add_zero, Nat.mod_eq_of_lt hidx]
  | succ n ih =>
    intro km hne hcool hnow hidx
    have hlen : 0 < km.keys.length := List.length_pos.mpr hne
    have hstep := getNextHealthyKey_rr e km now hne hcool hnow
    have hih := ih { km with currentIndex := (km.currentIndex + 1) % km.keys.length }
      hne hcool hnow (Nat.mod_lt _ hlen)
    rw [selectN, hstep]
    constructor
    · show km.keys.getD km.currentIndex "" :: _ = _
      rw [hih.1, List.range_succ_eq_map, List.map_cons, List.map_map]
      congr 1
      · rw [Nat.add_zero, Nat.mod_eq_of_lt hidx]
      · apply List.map_congr_left
        intro j _
        show km.keys.getD (((km.currentIndex + 1) % km.keys.length + j) % km.keys.length) "" =
          km.keys.getD ((km.currentIndex + Nat.succ j) % km.keys.length) ""
        congr 1
        rw [Nat.mod_add_mod]
        congr 1
        omega
    · show (selectN e _ now n).2 = _
      rw [hih.2]
      show ({ km with currentIndex := _ } : KM) = { km with currentIndex := _ }
      congr 1
      rw [Nat.mod_add_mod]
      congr 1
      omega

/-! ## Dispatch-loop lemmas -/

/-- On a pool of non-empty keys the rotation loop never throws the
missing-key configuration error. -/
theorem ewrGo_no_config (e : Option String) (op : Nat → String → Outcome) (now : Nat) :
    ∀ (fuel : Nat) (km : KM) (i : Nat) (le : Option String) (acc : List String),
      km.keys ≠ [] → (∀ s ∈ km.keys, s ≠ "") → km.currentIndex < km.keys.length →
      (ewrGo e op now km i fuel le acc).result ≠ .thrownConfig := by
  intro fuel
  induction fuel with
  | zero =>
    intro km i le acc _ _ _ h
    rw [ewrGo] at h
    exact DispatchResult.noConfusion h
  | succ n ih =>
    intro km i le acc hne hns hidx
    obtain ⟨hmem, hkeys, hcool, hidx'⟩ := getNextHealthyKey_spec e km now hne hidx
    have hkey : (getNextHealthyKey e km now).1 ≠ "" := hns _ hmem
    rw [ewrGo]
    simp only [hkey, if_false]
    cases hop : op i (getNextHealthyKey e km now).1 with
    | success v =>
      intro h
      exact DispatchResult.noConfusion h
    | failure msg =>
      cases hcl : classify msg with
      | rateLimited =>
        simp only [hcl]
        exact ih (markAsLimited (getNextHealthyKey e km now).2
            (getNextHealthyKey e km now).1 now) (i + 1) (some msg)
          (acc ++ [(getNextHealthyKey e km now).1])
          (by rw [markAsLimited]; simpa [hkeys] using hne)
          (by rw [markAsLimited]; simpa [hkeys] using hns)
          (by rw [markAsLimited]; simpa [hkeys] using hidx')
      | authInvalid =>
        simp only [hcl]
        exact ih (getNextHealthyKey e km now).2 (i + 1) (some msg)
          (acc ++ [(getNextHealthyKey e km now).1])
          (by simpa [hkeys] using hne) (by simpa [hkeys] using hns)
          (by simpa [hkeys] using hidx')
      | other =>
        simp only [hcl]
        intro h
        exact DispatchResult.noConfusion h

/-- The attempt log of the rotation loop only ever grows. -/
theorem ewrGo_attempts_extend (e : Option String) (op : Nat → String → Outcome)
    (now : Nat) :
    ∀ (fuel : Nat) (km : KM) (i : Nat) (le : Option String) (acc : List String),
      ∃ ext, (ewrGo e op now km i fuel le acc).attempts = acc ++ ext := by
  intro fuel
  induction fuel with
  | zero =>
    intro km i le acc
    exact ⟨[], by rw [ewrGo]; simp⟩
  | succ n ih =>
    intro km i le acc
    rw [ewrGo]
    by_cases hkey : (getNextHealthyKey e km now).1 = ""
    · exact ⟨[], by simp [hkey]⟩
    · simp only [hkey, if_false]
      cases hop : op i (getNextHealthyKey e km now).1 with
      | success v => exact ⟨[(getNextHealthyKey e km now).1], by simp⟩
      | failure msg =>
        cases hcl : classify msg with
        | rateLimited =>
          obtain ⟨ext, hext⟩ := ih (markAsLimited (getNextHealthyKey e km now).2
            (getNextHealthyKey e km now).1 now) (i + 1) (some msg)
            (acc ++ [(getNextHealthyKey e km now).1])
          refine ⟨(getNextHealthyKey e km now).1 :: ext, ?_⟩
          simp only [hcl]
          rw [hext]; simp
        | authInvalid =>
          obtain ⟨ext, hext⟩ := ih (getNextHealthyKey e km now).2 (i + 1) (some msg)
            (acc ++ [(getNextHealthyKey e km now).1])
          refine ⟨(getNextHealthyKey e km now).1 :: ext, ?_⟩
          simp only [hcl]
          rw [hext]; simp
        | other =>
          refine ⟨[(getNextHealthyKey e km now).1], ?_⟩
          simp only [hcl]

/-- With at least one iteration left and a pool of non-empty keys, the
rotation loop's very next upstream invocation uses the key that
`getNextHealthyKey` selects. -/
theorem ewrGo_first_attempt (e : Option String) (op : Nat → String → Outcome)
    (now : Nat) (fuel : Nat) (km : KM) (i : Nat) (le : Option String)
    (acc : List String) (hfuel : 1 ≤ fuel) (hne : km.keys ≠ [])
    (hns : ∀ s ∈ km.keys, s ≠ "") (hidx : km.currentIndex < km.keys.length) :
    ∃ rest, (ewrGo e op now km i fuel le acc).attempts =
      acc ++ ((getNextHealthyKey e km now).1 :: rest) := by
  obtain ⟨hmem, hkeys, hcool, hidx'⟩ := getNextHealthyKey_spec e km now hne hidx
  have hkey : (getNextHealthyKey e km now).1 ≠ "" := hns _ hmem
  cases fuel with
  | zero => omega
  | succ n =>
    rw [ewrGo]
    simp only [hkey, if_false]
    cases hop : op i (getNextHealthyKey e km now).1 with
    | success v => exact ⟨[], by simp⟩
    | failure msg =>
      cases hcl : classify msg with
      | rateLimited =>
        obtain ⟨ext, hext⟩ := ewrGo_attempts_extend e op now n
          (markAsLimited (getNextHealthyKey e km now).2 (getNextHealthyKey e km now).1 now)
          (i + 1) (some msg) (acc ++ [(getNextHealthyKey e km now).1])
        refine ⟨ext, ?_⟩
        simp only [hcl]
        rw [hext]; simp
      | authInvalid =>
        obtain ⟨ext, hext⟩ := ewrGo_attempts_extend e op now n
          (getNextHealthyKey e km now).2 (i + 1) (some msg)
          (acc ++ [(getNextHealthyKey e km now).1])
        refine ⟨ext, ?_⟩
        simp only [hcl]
        rw [hext]; simp
      | other =>
        refine ⟨[], ?_⟩
        simp only [hcl]

/-- A run in which every upstream failure carries an invalid-credential
signature: the cooldown map is never written, every remaining iteration
makes one upstream attempt using the round-robin successor of the
previous key, and the loop ends by throwing an error. -/
theorem ewrGo_authInvalid_run (e : Option String) (op : Nat → String → Outcome)
    (now : Nat) (hnow : 1 ≤ now)
    (hop : ∀ i k, ∃ m, op i k = .failure m ∧ classify m = .authInvalid) :
    ∀ (fuel : Nat) (km : KM) (i : Nat) (le : Option String) (acc : List String),
      km.keys ≠ [] → (∀ s ∈ km.keys, s ≠ "") → km.cooldowns = [] →
      km.currentIndex < km.keys.length →
      (ewrGo e op now km i fuel le acc).km.cooldowns = [] ∧
      (ewrGo e op now km i fuel le acc).attempts =
        acc ++ (List.range fuel).map
          (fun j => km.keys.getD ((km.currentIndex + j) % km.keys.length) "") ∧
      ∃ m, (ewrGo e op now km i fuel le acc).result = .thrown m := by
  intro fuel
  induction fuel with
  | zero =>
    intro km i le acc hne hns hcool hidx
    rw [ewrGo]
    exact ⟨hcool, by simp, _, rfl⟩
  | succ n ih =>
    intro km i le acc hne hns hcool hidx
    have hlen : 0 < km.keys.length := List.length_pos.mpr hne
    have hstep := getNextHealthyKey_rr e km now hne hcool hnow
    have hsel1 : (getNextHealthyKey e km now).1 = km.keys.getD km.currentIndex "" := by
      rw [hstep]
    have hsel2 : (getNextHealthyKey e km now).2 =
        { km with currentIndex := (km.currentIndex + 1) % km.keys.length } := by
      rw [hstep]
    have hmem : km.keys.getD km.currentIndex "" ∈ km.keys := by
      rw [List.getD_eq_getElem _ _ hidx]
      exact List.getElem_mem hidx
    have hkey : (getNextHealthyKey e km now).1 ≠ "" := by
      rw [hsel1]
      exact hns _ hmem
    obtain ⟨m, hopm, hclm⟩ := hop i (getNextHealthyKey e km now).1
    rw [ewrGo]
    simp only [hkey, if_false, hopm, hclm]
    have hih := ih (getNextHealthyKey e km now).2 (i + 1) (some m)
      (acc ++ [(getNextHealthyKey e km now).1])
      (by rw [hsel2]; exact hne)
      (by rw [hsel2]; exact hns)
      (by rw [hsel2]; exact hcool)
      (by rw [hsel2]; exact Nat.mod_lt _ hlen)
    refine ⟨hih.1, ?_, hih.2.2⟩
    rw [hih.2.1, hsel2, hsel1, List.append_assoc]
    congr 1
    rw [List.range_succ_eq_map, List.map_cons, List.map_map]
    show _ :: _ = _ :: _
    congr 1
    · rw [Nat.add_zero, Nat.mod_eq_of_lt hidx]
    · apply List.map_congr_left
      intro j _
      show km.keys.getD (((km.currentIndex + 1) % km.keys.length + j) % km.keys.length) ""
        = km.keys.getD ((km.currentIndex + Nat.succ j) % km.keys.length) ""
      congr 1
      rw [Nat.mod_add_mod]
      congr 1
      omega

/-- A run in which every attempt fails with one persistent rate-limit
signature `m0`: all `fuel` remaining iterations make an upstream
attempt, and the loop finally rethrows `m0` as the last observed
failure. -/
theorem ewrGo_rateLimited_run (e : Option String) (op : Nat → String → Outcome)
    (now : Nat) (m0 : String) (hcl : classify m0 = .rateLimited)
    (hop : ∀ i k, op i k = .failure m0) :
    ∀ (fuel : Nat) (km : KM) (i : Nat) (le : Option String) (acc : List String),
      km.keys ≠ [] → (∀ s ∈ km.keys, s ≠ "") → km.currentIndex < km.keys.length →
      (fuel = 0 → le = some m0) →
      (ewrGo e op now km i fuel le acc).attempts.length = acc.length + fuel ∧
      (ewrGo e op now km i fuel le acc).result = .thrown m0 := by
  intro fuel
  induction fuel with
  | zero =>
    intro km i le acc _ _ _ hle
    rw [ewrGo, hle rfl]
    exact ⟨by simp, rfl⟩
  | succ n ih =>
    intro km i le acc hne hns hidx _
    obtain ⟨hmem, hkeys, hcool, hidx'⟩ := getNextHealthyKey_spec e km now hne hidx
    have hkey : (getNextHealthyKey e km now).1 ≠ "" := hns _ hmem
    rw [ewrGo]
    simp only [hkey, if_false, hop i (getNextHealthyKey e km now).1, hcl]
    have hih := ih (markAsLimited (getNextHealthyKey e km now).2
        (getNextHealthyKey e km now).1 now) (i + 1) (some m0)
      (acc ++ [(getNextHealthyKey e km now).1])
      (by rw [markAsLimited]; simpa [hkeys] using hne)
      (by rw [markAsLimited]; simpa [hkeys] using hns)
      (by rw [markAsLimited]; simpa [hkeys] using hidx')
      (fun _ => rfl)
    refine ⟨?_, hih.2⟩
    rw [hih.1]
    simp
    omega

/-- With an empty pool and a falsy `process.env.API_KEY`, the very first
loop iteration throws the configuration error without any upstream
call. -/
theorem ewrGo_empty (e : Option String) (op : Nat → String → Outcome) (now : Nat)
    (km : KM) (i : Nat) (le : Option String) (acc : List String) (fuel : Nat)
    (hk : km.keys = []) (he : e.getD "" = "") (hf : 1 ≤ fuel) :
    ewrGo e op now km i fuel le acc =
      { result := .thrownConfig, km := km, attempts := acc } := by
  cases fuel with
  | zero => omega
  | succ n =>
    have hsel : getNextHealthyKey e km now = (e.getD "", km) := by
      rw [getNextHealthyKey]
      simp [hk]
    rw [ewrGo]
    simp only [hsel, he, if_true]

/-- `executeWithRotation` on an empty pool with falsy `API_KEY`. -/
theorem executeWithRotation_empty (e : Option String) (op : Nat → String → Outcome)
    (km : KM) (now : Nat) (hk : km.keys = []) (he : e.getD "" = "") :
    executeWithRotation e op km now =
      { result := .thrownConfig, km := km, attempts := [] } := by
  rw [executeWithRotation]
  exact ewrGo_empty e op now km 0 none [] _ hk he
    (by have := Nat.le_max_left 3 km.keys.length; omega)

/-! ## Claim theorems -/

/-- **C1.** If the credential pool is empty (no truthy credential in any
scanned environment slot), pool construction still succeeds and yields
the empty pool with no cooldown entries; `executeWithRotation` throws
the configuration error on the very first call with zero upstream calls
attempted; and the relay handler answers any `POST` with a 500
server-configuration failure without calling upstream. -/
theorem claim_C1 (env : Env) (henv1 : truthyOpt env.apiKey = none)
    (henv2 : truthyOpt env.baseToken = none)
    (henv3 : ∀ i, truthyOpt (env.numbered i) = none) :
    (kmInit env).keys = [] ∧ (kmInit env).cooldowns = [] ∧
    (∀ op now, executeWithRotation env.apiKey op (kmInit env) now =
      { result := .thrownConfig, km := kmInit env, attempts := [] }) ∧
    (∀ rand action upstream,
      handler env rand { method := "POST", action := action } upstream =
        { status := 500,
          error := some "System Error: No valid API keys found in KeyPool.",
          retrySuggested := none, upstreamCalled := false }) := by
  have hfm : (List.range' 1 500).filterMap (fun i => truthyOpt (env.numbered i)) = [] := by
    rw [List.filterMap_eq_nil_iff]
    intro a _
    exact henv3 a
  have hpool : initPool env = [] := by
    rw [initPool]
    simp only [henv1, henv2, hfm, Option.toList_none, List.nil_append, henv1]
    simp
  have hkm : kmInit env = { keys := [], currentIndex := 0, cooldowns := [] } := by
    rw [kmInit, hpool]
  have hapi : env.apiKey.getD "" = "" := by
    cases h : env.apiKey with
    | none => rfl
    | some s =>
      rw [h] at henv1
      have hs : s = "" := by
        by_cases hs : s = ""
        · exact hs
        · simp [truthyOpt, hs] at henv1
      simp [hs]
  have hrelay : relayPool env = [] := by
    rw [relayPool]
    simp only [henv1, henv2, hfm, Option.toList_none, List.nil_append]
  refine ⟨by rw [hkm], by rw [hkm], ?_, ?_⟩
  · intro op now
    exact executeWithRotation_empty env.apiKey op (kmInit env) now (by rw [hkm]) hapi
  · intro rand action upstream
    rw [handler]
    simp [hrelay]

/-- **C2.** On a non-empty pool whose credentials are all in cooldown,
`getNextHealthyKey` still returns a credential of the full pool; and
for a pool of size 1 whose only (non-empty) credential is cooling down,
`executeWithRotation` still makes its first upstream attempt with that
credential and never reports the configuration error. -/
theorem claim_C2 :
    (∀ (e : Option String) (km : KM) (now : Nat), km.keys ≠ [] →
      km.currentIndex < km.keys.length →
      (∀ k ∈ km.keys, isAvailable km.cooldowns k now = false) →
      (getNextHealthyKey e km now).1 ∈ km.keys) ∧
    (∀ (e : Option String) (op : Nat → String → Outcome) (km : KM) (now : Nat)
      (k : String), km.keys = [k] → k ≠ "" → km.currentIndex < km.keys.length →
      isAvailable km.cooldowns k now = false →
      (executeWithRotation e op km now).result ≠ .thrownConfig ∧
      ∃ rest, (executeWithRotation e op km now).attempts = k :: rest) := by
  constructor
  · intro e km now hne hidx _
    exact (getNextHealthyKey_spec e km now hne hidx).1
  · intro e op km now k hk hkne hidx _
    have hne : km.keys ≠ [] := by rw [hk]; simp
    have hns : ∀ s ∈ km.keys, s ≠ "" := by
      rw [hk]
      intro s hs
      rw [List.mem_singleton] at hs
      rw [hs]
      exact hkne
    have hsel : (getNextHealthyKey e km now).1 = k := by
      have hmem := (getNextHealthyKey_spec e km now hne hidx).1
      rw [hk, List.mem_singleton] at hmem
      exact hmem
    constructor
    · rw [executeWithRotation]
      exact ewrGo_no_config e op now _ km 0 none [] hne hns hidx
    · rw [executeWithRotation]
      obtain ⟨rest, hrest⟩ := ewrGo_first_attempt e op now (max 3 km.keys.length) km 0
        none [] (by have := Nat.le_max_left 3 km.keys.length; omega) hne hns hidx
      exact ⟨rest, by rw [hrest, hsel]; simp⟩

/-- The environment in which nothing is configured. -/
theorem claim_C1_witness :
    executeWithRotation none (fun _ _ => Outcome.success 0)
        (kmInit { apiKey := none, baseToken := none, numbered := fun _ => none }) 1000 =
      { result := .thrownConfig,
        km := kmInit { apiKey := none, baseToken := none, numbered := fun _ => none },
        attempts := [] } ∧
    handler { apiKey := none, baseToken := none, numbered := fun _ => none } 7
        { method := "POST", action := "generateContent" } (fun _ => .ok 3) =
      { status := 500,
        error := some "System Error: No valid API keys found in KeyPool.",
        retrySuggested := none, upstreamCalled := false } :=
  ⟨(claim_C1 { apiKey := none, baseToken := none, numbered := fun _ => none }
      rfl rfl (fun _ => rfl)).2.2.1 (fun _ _ => Outcome.success 0) 1000,
   (claim_C1 { apiKey := none, baseToken := none, numbered := fun _ => none }
      rfl rfl (fun _ => rfl)).2.2.2 7 "generateContent" (fun _ => .ok 3)⟩

/-- A pool of one credential `"kk"` cooling down until 100000, queried
at time 50. -/
theorem claim_C2_witness :
    (getNextHealthyKey none
        { keys := ["kk"], currentIndex := 0, cooldowns := [("kk", 100000)] } 50).1 ∈
      ({ keys := ["kk"], currentIndex := 0, cooldowns := [("kk", 100000)] } : KM).keys ∧
    (executeWithRotation none (fun _ _ => Outcome.success 0)
        { keys := ["kk"], currentIndex := 0, cooldowns := [("kk", 100000)] } 50).result ≠
      DispatchResult.thrownConfig ∧
    ∃ rest, (executeWithRotation none (fun _ _ => Outcome.success 0)
        { keys := ["kk"], currentIndex := 0, cooldowns := [("kk", 100000)] } 50).attempts =
      "kk" :: rest :=
  ⟨claim_C2.1 none { keys := ["kk"], currentIndex := 0, cooldowns := [("kk", 100000)] }
      50 (by decide) (by decide) (by decide),
   (claim_C2.2 none (fun _ _ => Outcome.success 0)
      { keys := ["kk"], currentIndex := 0, cooldowns := [("kk", 100000)] }
      50 "kk" rfl (by decide) (by decide) (by decide)).1,
   (claim_C2.2 none (fun _ _ => Outcome.success 0)
      { keys := ["kk"], currentIndex := 0, cooldowns := [("kk", 100000)] }
      50 "kk" rfl (by decide) (by decide) (by decide)).2⟩

/-- **C3 (counterexample).** Marking `"k"` at time `T = 0` leaves it
*unavailable* at `t = T + COOLDOWN_TIME` exactly, because the code's
availability test is `now > cooldownUntil` (strict), while the claim
asserts availability for all `t ≥ T + D`. -/
theorem claim_C3_counterexample :
    isAvailable (markAsLimited { keys := ["k"], currentIndex := 0, cooldowns := [] }
        "k" 0).cooldowns "k" (0 + COOLDOWN_TIME) = false := by
  decide

/-- **C3 (amended).** Marking credential X at time T (duration is the
fixed `COOLDOWN_TIME`) makes `isAvailable(X, t)` false for all
`t ∈ [T, T + COOLDOWN_TIME]` — the right endpoint *included* — and true
for all `t > T + COOLDOWN_TIME`; a missing entry behaves exactly like
an entry with excluded-until 0 (available for every positive clock),
any expired entry is likewise available, and a later mark overwrites a
prior entry. -/
theorem claim_C3 :
    (∀ (km : KM) (k : String) (T t : Nat), T ≤ t → t ≤ T + COOLDOWN_TIME →
      isAvailable (markAsLimited km k T).cooldowns k t = false) ∧
    (∀ (km : KM) (k : String) (T t : Nat), T + COOLDOWN_TIME < t →
      isAvailable (markAsLimited km k T).cooldowns k t = true) ∧
    (∀ (cd : List (String × Nat)) (k : String) (t : Nat), cd.lookup k = none →
      (isAvailable cd k t = true ↔ 0 < t)) ∧
    (∀ (cd : List (String × Nat)) (k : String) (v t : Nat), v < t →
      isAvailable (mapSet cd k v) k t = true) ∧
    (∀ (km : KM) (k : String) (T1 T2 : Nat),
      mapGet (markAsLimited (markAsLimited km k T1) k T2).cooldowns k =
        T2 + COOLDOWN_TIME) := by
  refine ⟨?_, ?_, ?_, ?_, ?_⟩
  · intro km k T t _ h2
    simp only [isAvailable, markAsLimited, mapGet_mapSet_self, decide_eq_false_iff_not,
      not_lt]
    exact h2
  · intro km k T t h
    simp only [isAvailable, markAsLimited, mapGet_mapSet_self, decide_eq_true_eq]
    exact h
  · intro cd k t h
    simp [isAvailable, mapGet, h]
  · intro cd k v t h
    simp only [isAvailable, mapGet_mapSet_self, decide_eq_true_eq]
    exact h
  · intro km k T1 T2
    simp [markAsLimited]

/-- Concrete instants for every part of the amended cooldown contract. -/
theorem claim_C3_witness :
    isAvailable (markAsLimited { keys := [], currentIndex := 0, cooldowns := [] }
        "k" 10).cooldowns "k" 30 = false ∧
    isAvailable (markAsLimited { keys := [], currentIndex := 0, cooldowns := [] }
        "k" 10).cooldowns "k" 70000 = true ∧
    (isAvailable [] "k" 5 = true ↔ 0 < 5) ∧
    isAvailable (mapSet [] "k" 3) "k" 9 = true ∧
    mapGet (markAsLimited (markAsLimited { keys := [], currentIndex := 0, cooldowns := [] }
        "k" 1) "k" 2).cooldowns "k" = 2 + COOLDOWN_TIME :=
  ⟨claim_C3.1 { keys := [], currentIndex := 0, cooldowns := [] } "k" 10 30
      (by decide) (by decide),
   claim_C3.2.1 { keys := [], currentIndex := 0, cooldowns := [] } "k" 10 70000 (by decide),
   claim_C3.2.2.1 [] "k" 5 rfl,
   claim_C3.2.2.2.1 [] "k" 3 9 (by decide),
   claim_C3.2.2.2.2 { keys := [], currentIndex := 0, cooldowns := [] } "k" 1 2⟩

/-- Two consecutive round-robin cursor positions differ when the pool
has at least two keys. -/
theorem mod_succ_ne (a N : Nat) (hN : 2 ≤ N) : a % N ≠ (a + 1) % N := by
  intro h
  have h1 : (a + 1) % N = (a % N + 1) % N := by
    rw [Nat.add_mod, Nat.mod_eq_of_lt (show 1 < N by omega)]
  rw [h1] at h
  have hbN : a % N < N := Nat.mod_lt _ (by omega)
  rcases Nat.lt_or_ge (a % N + 1) N with hlt | hge
  · rw [Nat.mod_eq_of_lt hlt] at h
    omega
  · have he : a % N + 1 = N := by omega
    rw [he, Nat.mod_self] at h
    omega

/-- **C4.** Under failures that all carry the invalid-credential
signature, the rotation loop never writes a cooldown entry (the
cooldown map after the run equals the map before it), it retries up to
`maxRetries` — each retry using the round-robin *successor* credential,
which differs from the previous one whenever the pool has ≥ 2 distinct
keys — and it ends by rethrowing an error rather than succeeding. -/
theorem claim_C4 (e : Option String) (op : Nat → String → Outcome) (km : KM)
    (now : Nat) (hne : km.keys ≠ []) (hns : ∀ s ∈ km.keys, s ≠ "")
    (hidx : km.currentIndex < km.keys.length) (hcool : km.cooldowns = [])
    (hnow : 1 ≤ now) (hnodup : km.keys.Nodup) (hN : 2 ≤ km.keys.length)
    (hop : ∀ i k, ∃ m, op i k = Outcome.failure m ∧ classify m = ErrClass.authInvalid) :
    (executeWithRotation e op km now).km.cooldowns = km.cooldowns ∧
    (∃ m, (executeWithRotation e op km now).result = .thrown m) ∧
    (executeWithRotation e op km now).attempts.length = max 3 km.keys.length ∧
    (∀ j, j + 1 < (executeWithRotation e op km now).attempts.length →
      (executeWithRotation e op km now).attempts.getD j "" ≠
        (executeWithRotation e op km now).attempts.getD (j + 1) "") := by
  have hrun := ewrGo_authInvalid_run e op now hnow hop (max 3 km.keys.length) km 0 none []
    hne hns hcool hidx
  rw [executeWithRotation]
  obtain ⟨hcd, hatt, hres⟩ := hrun
  have hlen0 : 0 < km.keys.length := List.length_pos.mpr hne
  refine ⟨by rw [hcd, hcool], hres, by rw [hatt]; simp, ?_⟩
  intro j hj
  rw [hatt] at hj ⊢
  simp only [List.nil_append] at hj ⊢
  have hjlen : j + 1 < (List.range (max 3 km.keys.length)).length := by
    simpa using hj
  have hjlen' : j < (List.range (max 3 km.keys.length)).length := by omega
  have hmap : ∀ (i : Nat) (hi : i < (List.range (max 3 km.keys.length)).length),
      ((List.range (max 3 km.keys.length)).map
        (fun j => km.keys.getD ((km.currentIndex + j) % km.keys.length) "")).getD i "" =
      km.keys.getD ((km.currentIndex + i) % km.keys.length) "" := by
    intro i hi
    rw [List.getD_eq_getElem _ _ (by simpa using hi), List.getElem_map,
      List.getElem_range]
  rw [hmap j hjlen', hmap (j + 1) hjlen]
  have hne2 : (km.currentIndex + j) % km.keys.length ≠
      (km.currentIndex + (j + 1)) % km.keys.length := by
    have := mod_succ_ne (km.currentIndex + j) km.keys.length hN
    simpa [Nat.add_assoc] using this
  have hm1 : (km.currentIndex + j) % km.keys.length < km.keys.length :=
    Nat.mod_lt _ hlen0
  have hm2 : (km.currentIndex + (j + 1)) % km.keys.length < km.keys.length :=
    Nat.mod_lt _ hlen0
  rw [List.getD_eq_getElem _ _ hm1, List.getD_eq_getElem _ _ hm2]
  intro hcontra
  exact hne2 ((hnodup.getElem_inj_iff).mp hcontra)

/-- A two-key pool where every attempt reports an invalid API key. -/
theorem claim_C4_witness :
    (executeWithRotation none (fun _ _ => Outcome.failure "Invalid API Key")
        { keys := ["a", "b"], currentIndex := 0, cooldowns := [] } 9).km.cooldowns =
      ({ keys := ["a", "b"], currentIndex := 0, cooldowns := [] } : KM).cooldowns ∧
    (∃ m, (executeWithRotation none (fun _ _ => Outcome.failure "Invalid API Key")
        { keys := ["a", "b"], currentIndex := 0, cooldowns := [] } 9).result =
      .thrown m) ∧
    (executeWithRotation none (fun _ _ => Outcome.failure "Invalid API Key")
        { keys := ["a", "b"], currentIndex := 0, cooldowns := [] } 9).attempts.length =
      max 3 2 ∧
    (∀ j, j + 1 < (executeWithRotation none
          (fun _ _ => Outcome.failure "Invalid API Key")
          { keys := ["a", "b"], currentIndex := 0, cooldowns := [] } 9).attempts.length →
      (executeWithRotation none (fun _ _ => Outcome.failure "Invalid API Key")
          { keys := ["a", "b"], currentIndex := 0, cooldowns := [] } 9).attempts.getD j ""
        ≠ (executeWithRotation none (fun _ _ => Outcome.failure "Invalid API Key")
          { keys := ["a", "b"], currentIndex := 0, cooldowns := [] } 9).attempts.getD
          (j + 1) "") :=
  claim_C4 none (fun _ _ => Outcome.failure "Invalid API Key")
    { keys := ["a", "b"], currentIndex := 0, cooldowns := [] } 9
    (by decide) (by decide) (by decide) rfl (by decide) (by decide) (by decide)
    (fun _ _ => ⟨"Invalid API Key", rfl, by decide⟩)

/-- **C5.** If the first attempt fails with a message that matches
neither the rate-limit nor the invalid-credential signature, the
rotation loop rethrows that error immediately: exactly one upstream
attempt, no retry, and the cooldown map is untouched. -/
theorem claim_C5 (e : Option String) (op : Nat → String → Outcome) (km : KM)
    (now : Nat) (msg : String) (hne : km.keys ≠ [])
    (hns : ∀ s ∈ km.keys, s ≠ "") (hidx : km.currentIndex < km.keys.length)
    (hop : op 0 (getNextHealthyKey e km now).1 = Outcome.failure msg)
    (hcl : classify msg = ErrClass.other) :
    (executeWithRotation e op km now).result = .thrown msg ∧
    (executeWithRotation e op km now).attempts =
      [(getNextHealthyKey e km now).1] ∧
    (executeWithRotation e op km now).attempts.length = 1 ∧
    (executeWithRotation e op km now).km.cooldowns = km.cooldowns := by
  obtain ⟨hmem, hkeys, hcool, hidx'⟩ := getNextHealthyKey_spec e km now hne hidx
  have hkey : (getNextHealthyKey e km now).1 ≠ "" := hns _ hmem
  have hfuel : ∃ n, max 3 km.keys.length = n + 1 := by
    have := Nat.le_max_left 3 km.keys.length
    exact ⟨max 3 km.keys.length - 1, by omega⟩
  obtain ⟨n, hn⟩ := hfuel
  rw [executeWithRotation, hn, ewrGo]
  simp only [hkey, if_false, hop, hcl]
  simp [hcool]

/-- A malformed-request failure on a two-key pool. -/
theorem claim_C5_witness :
    (executeWithRotation none (fun _ _ => Outcome.failure "bad request shape")
        { keys := ["a", "b"], currentIndex := 0, cooldowns := [] } 9).result =
      .thrown "bad request shape" ∧
    (executeWithRotation none (fun _ _ => Outcome.failure "bad request shape")
        { keys := ["a", "b"], currentIndex := 0, cooldowns := [] } 9).attempts =
      [(getNextHealthyKey none
        { keys := ["a", "b"], currentIndex := 0, cooldowns := [] } 9).1] ∧
    (executeWithRotation none (fun _ _ => Outcome.failure "bad request shape")
        { keys := ["a", "b"], currentIndex := 0, cooldowns := [] } 9).attempts.length =
      1 ∧
    (executeWithRotation none (fun _ _ => Outcome.failure "bad request shape")
        { keys := ["a", "b"], currentIndex := 0, cooldowns := [] } 9).km.cooldowns =
      ({ keys := ["a", "b"], currentIndex := 0, cooldowns := [] } : KM).cooldowns :=
  claim_C5 none (fun _ _ => Outcome.failure "bad request shape")
    { keys := ["a", "b"], currentIndex := 0, cooldowns := [] } 9 "bad request shape"
    (by decide) (by decide) (by decide) rfl (by decide)

/-- **C6 (counterexample).** On a pool of 13 non-empty keys with a
persistent `"429"` failure, `executeWithRotation` makes 13 upstream
attempts, while the claim's bound `min(configuredCeiling, max(3,
poolSize))` allows at most 12 for every ceiling in the claimed 10–12
default range — the code has no configured ceiling at all. -/
theorem claim_C6_counterexample :
    (executeWithRotation none (fun _ _ => Outcome.failure "429")
        { keys := ["k01", "k02", "k03", "k04", "k05", "k06", "k07", "k08", "k09",
                   "k10", "k11", "k12", "k13"],
          currentIndex := 0, cooldowns := [] } 1).attempts.length = 13 ∧
    min 12 (max 3 13) < 13 := by
  constructor
  · rw [executeWithRotation]
    have h := ewrGo_rateLimited_run none (fun _ _ => Outcome.failure "429") 1 "429"
      (by decide) (fun _ _ => rfl)
      (max 3 (({ keys := ["k01", "k02", "k03", "k04", "k05", "k06", "k07", "k08",
                          "k09", "k10", "k11", "k12", "k13"],
                 currentIndex := 0, cooldowns := [] } : KM)).keys.length)
      { keys := ["k01", "k02", "k03", "k04", "k05", "k06", "k07", "k08", "k09",
                 "k10", "k11", "k12", "k13"],
        currentIndex := 0, cooldowns := [] } 0 none []
      (by decide) (by decide) (by decide) (by intro h0; simp at h0)
    rw [h.1]
    decide
  · decide

/-- **C6 (amended).** For every pool whose keys are non-empty strings,
under a persistent rate-limited failure signature `m0`,
`executeWithRotation` makes *exactly* `max 3 poolSize` upstream
attempts — hence at least `min 3 poolSize` — and terminates by throwing
the last observed failure `m0`.  There is no configured ceiling: the
attempt count grows without bound with the pool. -/
theorem claim_C6 (e : Option String) (op : Nat → String → Outcome) (km : KM)
    (now : Nat) (m0 : String) (hne : km.keys ≠ [])
    (hns : ∀ s ∈ km.keys, s ≠ "") (hidx : km.currentIndex < km.keys.length)
    (hcl : classify m0 = ErrClass.rateLimited)
    (hop : ∀ i k, op i k = Outcome.failure m0) :
    (executeWithRotation e op km now).attempts.length = max 3 km.keys.length ∧
    min 3 km.keys.length ≤ (executeWithRotation e op km now).attempts.length ∧
    (executeWithRotation e op km now).result = .thrown m0 := by
  rw [executeWithRotation]
  have h := ewrGo_rateLimited_run e op now m0 hcl hop (max 3 km.keys.length) km 0
    none [] hne hns hidx
    (by intro h0; have := Nat.le_max_left 3 km.keys.length; omega)
  refine ⟨by rw [h.1]; simp, ?_, h.2⟩
  rw [h.1]
  simp only [List.length_nil, Nat.zero_add]
  have h3 := Nat.le_max_left 3 km.keys.length
  have h4 := Nat.min_le_left 3 km.keys.length
  omega

/-- A two-key pool under a persistent `"quota exceeded"` signature. -/
theorem claim_C6_witness :
    (executeWithRotation none (fun _ _ => Outcome.failure "quota exceeded")
        { keys := ["a", "b"], currentIndex := 0, cooldowns := [] } 7).attempts.length =
      max 3 2 ∧
    min 3 2 ≤ (executeWithRotation none (fun _ _ => Outcome.failure "quota exceeded")
        { keys := ["a", "b"], currentIndex := 0, cooldowns := [] } 7).attempts.length ∧
    (executeWithRotation none (fun _ _ => Outcome.failure "quota exceeded")
        { keys := ["a", "b"], currentIndex := 0, cooldowns := [] } 7).result =
      .thrown "quota exceeded" :=
  claim_C6 none (fun _ _ => Outcome.failure "quota exceeded")
    { keys := ["a", "b"], currentIndex := 0, cooldowns := [] } 7 "quota exceeded"
    (by decide) (by decide) (by decide) (by decide) (fun _ _ => rfl)

/-- **C7.** Over a pool of `N` distinct keys with no cooldown entries,
`N` consecutive `getNextHealthyKey` selections follow the deterministic
cursor order `keys[(start + j) % N]`, visit each credential exactly
once, and return the `KeyManager` to its starting state — so the order
repeats cyclically with the cursor wrapping modulo the pool size. -/
theorem claim_C7 (e : Option String) (km : KM) (now : Nat) (hne : km.keys ≠ [])
    (hcool : km.cooldowns = []) (hnow : 1 ≤ now)
    (hidx : km.currentIndex < km.keys.length) (hnodup : km.keys.Nodup) :
    (selectN e km now km.keys.length).1 =
      (List.range km.keys.length).map
        (fun j => km.keys.getD ((km.currentIndex + j) % km.keys.length) "") ∧
    (∀ k ∈ km.keys, (selectN e km now km.keys.length).1.count k = 1) ∧
    (selectN e km now km.keys.length).2 = km := by
  obtain ⟨h1, h2⟩ := selectN_rr e now km.keys.length km hne hcool hnow hidx
  have hlen : 0 < km.keys.length := List.length_pos.mpr hne
  have hrot : (List.range km.keys.length).map
      (fun j => km.keys.getD ((km.currentIndex + j) % km.keys.length) "") =
      km.keys.rotate km.currentIndex := by
    apply List.ext_getElem
    · simp
    · intro i hi1 hi2
      rw [List.getElem_map, List.getElem_range, List.getElem_rotate,
        List.getD_eq_getElem _ _ (Nat.mod_lt _ hlen), Nat.add_comm km.currentIndex i]
  refine ⟨h1, ?_, ?_⟩
  · intro k hk
    rw [h1, hrot, (List.rotate_perm km.keys km.currentIndex).count_eq]
    exact List.count_eq_one_of_mem hnodup hk
  · rw [h2]
    have hmod : (km.currentIndex + km.keys.length) % km.keys.length =
        km.currentIndex := by
      rw [Nat.add_mod_right]
      exact Nat.mod_eq_of_lt hidx
    rw [hmod]

/-- Three distinct keys, cursor starting at 1. -/
theorem claim_C7_witness :
    (selectN none { keys := ["a", "b", "c"], currentIndex := 1, cooldowns := [] } 5
        3).1 =
      (List.range 3).map
        (fun j => (["a", "b", "c"] : List String).getD ((1 + j) % 3) "") ∧
    (∀ k ∈ (["a", "b", "c"] : List String),
      (selectN none { keys := ["a", "b", "c"], currentIndex := 1, cooldowns := [] } 5
        3).1.count k = 1) ∧
    (selectN none { keys := ["a", "b", "c"], currentIndex := 1, cooldowns := [] } 5
        3).2 = { keys := ["a", "b", "c"], currentIndex := 1, cooldowns := [] } :=
  claim_C7 none { keys := ["a", "b", "c"], currentIndex := 1, cooldowns := [] } 5
    (by decide) rfl (by decide) (by decide) (by decide)

/-- The effective relay status is 429 exactly when the upstream error
carried status 429. -/
theorem statusOr500_eq_429 (st : Option Nat) : statusOr500 st = 429 ↔ st = some 429 := by
  cases st with
  | none => simp [statusOr500]
  | some s =>
    by_cases hs : s = 0
    · simp [statusOr500, hs]
    · simp [statusOr500, hs]

/-- **C8.** The relay answers 200 to a preflight `OPTIONS` request, 405
to any method other than `POST`/`OPTIONS`, and — when credentials
exist — 400 with no upstream call to a `POST` whose action is
unsupported; on an upstream failure the JSON body carries the error
message (with a default), `retrySuggested` is `true` exactly when the
upstream error's status is 429, and the HTTP status passes the
upstream error's own status through, defaulting to 500 when it is
missing or falsy. -/
theorem claim_C8 :
    (∀ (env : Env) (rand : Nat) (action : String)
        (upstream : String → UpstreamResult),
      handler env rand { method := "OPTIONS", action := action } upstream =
        { status := 200, error := none, retrySuggested := none,
          upstreamCalled := false }) ∧
    (∀ (env : Env) (rand : Nat) (req : Req) (upstream : String → UpstreamResult),
      req.method ≠ "OPTIONS" → req.method ≠ "POST" →
      handler env rand req upstream =
        { status := 405, error := some "Method Not Allowed", retrySuggested := none,
          upstreamCalled := false }) ∧
    (∀ (env : Env) (rand : Nat) (action : String)
        (upstream : String → UpstreamResult),
      relayPool env ≠ [] → action ≠ "generateContent" →
      (handler env rand { method := "POST", action := action } upstream).status = 400 ∧
      (handler env rand { method := "POST", action := action } upstream).upstreamCalled
        = false) ∧
    (∀ (env : Env) (rand : Nat) (upstream : String → UpstreamResult)
        (st : Option Nat) (msg : Option String),
      relayPool env ≠ [] →
      upstream ((relayPool env).getD (rand % (relayPool env).length) "") =
        UpstreamResult.err st msg →
      (handler env rand { method := "POST", action := "generateContent" }
          upstream).status = statusOr500 st ∧
      (handler env rand { method := "POST", action := "generateContent" }
          upstream).error = some (msg.getD "AI Engine is temporarily unavailable.") ∧
      (handler env rand { method := "POST", action := "generateContent" }
          upstream).upstreamCalled = true ∧
      ((handler env rand { method := "POST", action := "generateContent" }
          upstream).retrySuggested = some true ↔ st = some 429) ∧
      (st = none →
        (handler env rand { method := "POST", action := "generateContent" }
          upstream).status = 500) ∧
      (∀ s, st = some s → s ≠ 0 →
        (handler env rand { method := "POST", action := "generateContent" }
          upstream).status = s)) := by
  refine ⟨?_, ?_, ?_, ?_⟩
  · intro env rand action upstream
    rw [handler]
    simp
  · intro env rand req upstream h1 h2
    rw [handler]
    simp [h1, h2]
  · intro env rand action upstream hpool haction
    have hlen : relayPool env ≠ [] := hpool
    constructor
    · rw [handler]
      simp [List.length_eq_zero, hlen, haction]
    · rw [handler]
      simp [List.length_eq_zero, hlen, haction]
  · intro env rand upstream st msg hpool hup
    have hlen : ¬ (relayPool env).length = 0 := by
      simpa [List.length_eq_zero] using hpool
    rw [List.getD_eq_getElem?_getD] at hup
    refine ⟨?_, ?_, ?_, ?_, ?_, ?_⟩
    · rw [handler]
      simp [hlen, hup]
    · rw [handler]
      simp [hlen, hup]
    · rw [handler]
      simp [hlen, hup]
    · rw [handler]
      simp only [hlen, hup]
      simp [hup, statusOr500_eq_429]
    · intro hst
      rw [handler]
      simp [hlen, hup, hst, statusOr500]
    · intro v hst hv
      rw [handler]
      simp [hlen, hup, hst, statusOr500, hv]

/-- Concrete relay requests: a preflight, a `GET`, an unsupported
action, and a 429 upstream failure, against a one-key environment. -/
theorem claim_C8_witness :
    handler { apiKey := some "K", baseToken := none, numbered := fun _ => none } 0
        { method := "OPTIONS", action := "x" } (fun _ => .ok 1) =
      { status := 200, error := none, retrySuggested := none,
        upstreamCalled := false } ∧
    handler { apiKey := some "K", baseToken := none, numbered := fun _ => none } 0
        { method := "GET", action := "x" } (fun _ => .ok 1) =
      { status := 405, error := some "Method Not Allowed", retrySuggested := none,
        upstreamCalled := false } ∧
    (handler { apiKey := some "K", baseToken := none, numbered := fun _ => none } 0
        { method := "POST", action := "frobnicate" } (fun _ => .ok 1)).status = 400 ∧
    (handler { apiKey := some "K", baseToken := none, numbered := fun _ => none } 0
        { method := "POST", action := "frobnicate" } (fun _ => .ok 1)).upstreamCalled
      = false ∧
    ((handler { apiKey := some "K", baseToken := none, numbered := fun _ => none } 0
        { method := "POST", action := "generateContent" }
        (fun _ => .err (some 429) (some "quota"))).retrySuggested = some true ↔
      (some 429 : Option Nat) = some 429) ∧
    (handler { apiKey := some "K", baseToken := none, numbered := fun _ => none } 0
        { method := "POST", action := "generateContent" }
        (fun _ => .err (some 429) (some "quota"))).status = 429 := by
  refine ⟨claim_C8.1 _ 0 "x" _,
    claim_C8.2.1 _ 0 { method := "GET", action := "x" } _ (by decide) (by decide),
    (claim_C8.2.2.1 _ 0 "frobnicate" _ ?hp (by decide)).1,
    (claim_C8.2.2.1 _ 0 "frobnicate" _ ?hp2 (by decide)).2,
    (claim_C8.2.2.2 _ 0 _ (some 429) (some "quota") ?hp3 ?hu).2.2.2.1,
    (claim_C8.2.2.2 _ 0 _ (some 429) (some "quota") ?hp4 ?hu2).2.2.2.2.2 429 rfl
      (by decide)⟩
  case hp => intro h; exact absurd h (by decide)
  case hp2 => intro h; exact absurd h (by decide)
  case hp3 => intro h; exact absurd h (by decide)
  case hp4 => intro h; exact absurd h (by decide)
  case hu => rfl
  case hu2 => rfl

/-! ## Base64 and PCM lemmas -/

/-- Decoding a base64 character inverts encoding a sixtet. -/
theorem charToSix_sixToChar : ∀ n, n < 64 → charToSix (sixToChar n) = n := by
  decide

/-- No sixtet encodes to the padding character. -/
theorem sixToChar_ne_pad : ∀ n, n < 64 → sixToChar n ≠ '=' := by
  decide

/-- `atob` of the empty text. -/
theorem decodeBase64_nil : decodeBase64 [] = [] := rfl

/-- **C9.** Base64 decoding inverts encoding on every byte list, and
the PCM conversions are exact: `int16ToFloat` is division by 32768
(exactly representable, hence modelled with rationals), and the
int16 → float → int16 composite reproduces the sample exactly — in
particular within ±1 least-significant bit. -/
theorem claim_C9 :
    (∀ bs : List Nat, (∀ b ∈ bs, b < 256) →
      decodeBase64 (encodeBase64 bs) = bs) ∧
    (∀ s : Int, -32768 ≤ s → s ≤ 32767 →
      int16ToFloat s = (s : ℚ) / 32768 ∧
      floatToInt16 (int16ToFloat s) = s ∧
      (floatToInt16 (int16ToFloat s) - s).natAbs ≤ 1) := by
  have hround : ∀ bs : List Nat, (∀ b ∈ bs, b < 256) →
      decodeBase64 (encodeBase64 bs) = bs := by
    intro bs
    induction bs using encodeBase64.induct with
    | case1 => intro _; rfl
    | case2 b0 =>
      intro h
      have hb0 : b0 < 256 := h b0 (by simp)
      have h1 : b0 * 65536 / 262144 % 64 < 64 := Nat.mod_lt _ (by omega)
      have h2 : b0 * 65536 / 4096 % 64 < 64 := Nat.mod_lt _ (by omega)
      rw [encodeBase64, decodeBase64, decodeChunk]
      rw [if_pos rfl, charToSix_sixToChar _ h1, charToSix_sixToChar _ h2]
      simp only [decodeBase64_nil, List.append_nil, List.cons.injEq, and_true]
      omega
    | case3 b0 b1 =>
      intro h
      have hb0 : b0 < 256 := h b0 (by simp)
      have hb1 : b1 < 256 := h b1 (by simp)
      have h1 : (b0 * 65536 + b1 * 256) / 262144 % 64 < 64 := Nat.mod_lt _ (by omega)
      have h2 : (b0 * 65536 + b1 * 256) / 4096 % 64 < 64 := Nat.mod_lt _ (by omega)
      have h3 : (b0 * 65536 + b1 * 256) / 64 % 64 < 64 := Nat.mod_lt _ (by omega)
      rw [encodeBase64, decodeBase64, decodeChunk]
      rw [if_neg (sixToChar_ne_pad _ h3), if_pos rfl,
        charToSix_sixToChar _ h1, charToSix_sixToChar _ h2, charToSix_sixToChar _ h3]
      simp only [decodeBase64_nil, List.append_nil, List.cons.injEq, and_true]
      omega
    | case4 b0 b1 b2 rest ih =>
      intro h
      have hb0 : b0 < 256 := h b0 (by simp)
      have hb1 : b1 < 256 := h b1 (by simp)
      have hb2 : b2 < 256 := h b2 (by simp)
      have hrest := ih (fun b hb => h b (by simp [hb]))
      have h1 : (b0 * 65536 + b1 * 256 + b2) / 262144 % 64 < 64 :=
        Nat.mod_lt _ (by omega)
      have h2 : (b0 * 65536 + b1 * 256 + b2) / 4096 % 64 < 64 :=
        Nat.mod_lt _ (by omega)
      have h3 : (b0 * 65536 + b1 * 256 + b2) / 64 % 64 < 64 := Nat.mod_lt _ (by omega)
      have h4 : (b0 * 65536 + b1 * 256 + b2) % 64 < 64 := Nat.mod_lt _ (by omega)
      rw [encodeBase64, decodeBase64, decodeChunk]
      rw [if_neg (sixToChar_ne_pad _ h3), if_neg (sixToChar_ne_pad _ h4),
        charToSix_sixToChar _ h1, charToSix_sixToChar _ h2,
        charToSix_sixToChar _ h3, charToSix_sixToChar _ h4, hrest]
      simp only [List.cons_append, List.nil_append, List.cons.injEq, and_true]
      refine ⟨by omega, by omega, by omega⟩
  refine ⟨hround, ?_⟩
  intro s hlo hhi
  have hmul : (s : ℚ) / 32768 * 32768 = (s : ℚ) := by
    field_simp
  have htr : ratTrunc ((s : ℚ)) = s := by
    rw [ratTrunc]
    by_cases hs : (0 : ℚ) ≤ (s : ℚ)
    · rw [if_pos hs, Int.floor_intCast]
    · rw [if_neg hs, Int.ceil_intCast]
  have hrt : floatToInt16 (int16ToFloat s) = s := by
    rw [int16ToFloat, floatToInt16, hmul, htr, jsToInt16]
    show (if s % 65536 < 32768 then s % 65536 else s % 65536 - 65536) = s
    split_ifs <;> omega
  refine ⟨rfl, hrt, ?_⟩
  rw [hrt]
  simp

/-- A six-byte payload and the sample −12345. -/
theorem claim_C9_witness :
    decodeBase64 (encodeBase64 [0, 1, 2, 3, 254, 255]) = [0, 1, 2, 3, 254, 255] ∧
    int16ToFloat (-12345) = ((-12345 : Int) : ℚ) / 32768 ∧
    floatToInt16 (int16ToFloat (-12345)) = -12345 ∧
    (floatToInt16 (int16ToFloat (-12345)) - (-12345)).natAbs ≤ 1 :=
  ⟨claim_C9.1 [0, 1, 2, 3, 254, 255] (by decide),
   (claim_C9.2 (-12345) (by decide) (by decide)).1,
   (claim_C9.2 (-12345) (by decide) (by decide)).2.1,
   (claim_C9.2 (-12345) (by decide) (by decide)).2.2⟩

/-! ## Typing-assessment lemmas -/

/-- Every reachable state keeps `score = calculateScore mistakeCount`
and never lets the typed text outgrow the target text. -/
theorem reachable_invariant (orig : List Char) (st : TState)
    (h : Reachable orig st) :
    st.score = calculateScore st.mistakeCount ∧
    st.typedText.length ≤ orig.length := by
  induction h with
  | init => exact ⟨rfl, by simp [initState]⟩
  | typing st value now hR ih =>
    rw [handleTyping]
    split_ifs
    any_goals exact ih
    all_goals
      exact ⟨rfl, by show value.length ≤ orig.length; omega⟩
  | tick st hR ih =>
    rw [timerTick]
    split_ifs
    all_goals exact ih
  | retry st hR ih => exact ⟨rfl, by simp [initState]⟩

/-- **C10.** In every reachable state of the typing assessment the
typed text never exceeds the target's length; `calculateScore` is
exactly the 100/90/80/0 bracket function; and whenever `handleFinish`
fires the completion callback, the submitted text equals the target
character for character, the timer has not expired, the reported
accuracy is 100, at most 5 mistakes were made, and the reported score
is `calculateScore mistakes` — 100 for 0 mistakes, 90 for ≤ 2, 80
otherwise (mistakes > 5 cannot pass). -/
theorem claim_C10 (orig : List Char) (st : TState) (h : Reachable orig st) :
    st.typedText.length ≤ orig.length ∧
    (∀ m, calculateScore m =
      if m = 0 then 100 else if m ≤ 2 then 90 else if m ≤ 5 then 80 else 0) ∧
    (∀ (now : Nat) (typed : List Char) (stats : TStats),
      handleFinish orig st now = some (typed, stats) →
      typed = orig ∧ st.isFailed = false ∧ stats.accuracy = 100 ∧
      stats.mistakes ≤ 5 ∧ stats.score = calculateScore stats.mistakes ∧
      stats.score =
        (if stats.mistakes = 0 then 100 else if stats.mistakes ≤ 2 then 90 else 80)) := by
  obtain ⟨hsc, hlen⟩ := reachable_invariant orig st h
  refine ⟨hlen, fun m => rfl, ?_⟩
  intro now typed stats hf
  rw [handleFinish] at hf
  by_cases hc : st.typedText = orig ∧ st.isFailed = false ∧ 80 ≤ st.score
  · rw [if_pos hc] at hf
    cases hst : st.startTime with
    | none =>
      rw [hst] at hf
      exact absurd hf (by simp)
    | some start =>
      rw [hst] at hf
      have hpair := Option.some.inj hf
      rw [Prod.mk.injEq] at hpair
      obtain ⟨hty, hstats⟩ := hpair
      have h80 : 80 ≤ calculateScore st.mistakeCount := hsc ▸ hc.2.2
      have hm5 : st.mistakeCount ≤ 5 := by
        by_contra hgt
        rw [calculateScore] at h80
        rw [if_neg (by omega), if_neg (by omega), if_neg (by omega)] at h80
        omega
      have hform : calculateScore st.mistakeCount =
          (if st.mistakeCount = 0 then 100 else
            if st.mistakeCount ≤ 2 then 90 else 80) := by
        rw [calculateScore]
        split_ifs <;> omega
      refine ⟨hty ▸ hc.1, hc.2.1, ?_, ?_, ?_, ?_⟩
      · rw [← hstats]
      · show stats.mistakes ≤ 5
        rw [← hstats]
        exact hm5
      · rw [← hstats]
        show st.score = calculateScore st.mistakeCount
        exact hsc
      · rw [← hstats]
        show st.score = _
        rw [hsc, hform]
  · rw [if_neg hc] at hf
    exact absurd hf (by simp)

/-- A clean two-keystroke run over the target `"ab"`, finished at time
100: the callback fires with accuracy 100, 0 mistakes and score 100. -/
theorem claim_C10_witness :
    (['a', 'b'] : List Char) = ['a', 'b'] ∧
    (handleTyping ['a', 'b'] (handleTyping ['a', 'b'] (initState ['a', 'b']) ['a'] 5)
      ['a', 'b'] 6).isFailed = false ∧
    (⟨24000, 100, 0, 19 / 200, 100⟩ : TStats).accuracy = 100 ∧
    (⟨24000, 100, 0, 19 / 200, 100⟩ : TStats).mistakes ≤ 5 ∧
    (⟨24000, 100, 0, 19 / 200, 100⟩ : TStats).score =
      calculateScore (⟨24000, 100, 0, 19 / 200, 100⟩ : TStats).mistakes ∧
    (⟨24000, 100, 0, 19 / 200, 100⟩ : TStats).score =
      (if (⟨24000, 100, 0, 19 / 200, 100⟩ : TStats).mistakes = 0 then 100
       else if (⟨24000, 100, 0, 19 / 200, 100⟩ : TStats).mistakes ≤ 2 then 90 else 80) :=
  (claim_C10 ['a', 'b']
      (handleTyping ['a', 'b'] (handleTyping ['a', 'b'] (initState ['a', 'b']) ['a'] 5)
        ['a', 'b'] 6)
      (Reachable.typing (handleTyping ['a', 'b'] (initState ['a', 'b']) ['a'] 5)
        ['a', 'b'] 6
        (Reachable.typing (initState ['a', 'b']) ['a'] 5 Reachable.init))).2.2
    100 ['a', 'b'] ⟨24000, 100, 0, 19 / 200, 100⟩
    (by norm_num [handleFinish, handleTyping, initState, calculateScore, round_eq])

end DaneshYar
